import Mathlib

/-!
Verification of the LSP-bridge repository's capability registry, coordinate
translation seam, and symbol resolver against its specification.

Shallow embedding conventions:
* Go pointers become `Option`; a Go `Or_*` wrapper (pointer whose payload has
  a nullable `Value` field) becomes `Option OrCapability` where
  `OrCapability.value : Option CapValue` models the inner `any` value.
* Go `uint32` values are `Nat` with explicit `% 2^32`; Go `int` is `Int`.
* Strings stay `String`; Go standard-library string helpers are embedded as
  the `go*` functions below (`strings.EqualFold` is modelled as ASCII case
  folding, the only fragment the claims exercise).
-/

/-- Inner value of an LSP capability field: the protocol allows a boolean or
an options object (source: `Or_*` wrapper types in the protocol package). -/
inductive CapValue where
  | bool (b : Bool)
  | options
deriving DecidableEq

/-- An `Or_ServerCapabilities_*` wrapper: a present wrapper whose `Value`
field may still be null (source: the two-part nil checks in capabilities.go). -/
structure OrCapability where
  value : Option CapValue
deriving DecidableEq

/-- The capability fields read by the support queries
(source: `protocol.ServerCapabilities` as used in capabilities.go).
Nullable-wrapper fields are `Option OrCapability`; plain optional fields
(`interface\x7b\x7d` or a pointer to an options struct) are a single `Option`. -/
structure ServerCapabilities where
  DefinitionProvider : Option OrCapability
  ReferencesProvider : Option OrCapability
  HoverProvider : Option OrCapability
  DocumentSymbolProvider : Option OrCapability
  CallHierarchyProvider : Option OrCapability
  WorkspaceSymbolProvider : Option OrCapability
  RenameProvider : Option CapValue
  CodeActionProvider : Option CapValue
  SignatureHelpProvider : Option Unit
  CodeLensProvider : Option Unit
deriving DecidableEq

/-- Source: `HasDefinitionSupport` (capabilities.go): nil-check on `caps`,
then two-part checks on both `DefinitionProvider` and
`WorkspaceSymbolProvider` (pointer non-nil AND `.Value` non-nil). -/
def HasDefinitionSupport (caps : Option ServerCapabilities) : Bool :=
  match caps with
  | none => false
  | some caps =>
    match caps.DefinitionProvider, caps.WorkspaceSymbolProvider with
    | some dp, some wp => dp.value.isSome && wp.value.isSome
    | _, _ => false

/-- Source: `HasReferencesSupport` (capabilities.go). -/
def HasReferencesSupport (caps : Option ServerCapabilities) : Bool :=
  match caps with
  | none => false
  | some caps =>
    match caps.ReferencesProvider with
    | none => false
    | some p => p.value.isSome

/-- Source: `HasHoverSupport` (capabilities.go). -/
def HasHoverSupport (caps : Option ServerCapabilities) : Bool :=
  match caps with
  | none => false
  | some caps =>
    match caps.HoverProvider with
    | none => false
    | some p => p.value.isSome

/-- Source: `HasDocumentSymbolSupport` (capabilities.go). -/
def HasDocumentSymbolSupport (caps : Option ServerCapabilities) : Bool :=
  match caps with
  | none => false
  | some caps =>
    match caps.DocumentSymbolProvider with
    | none => false
    | some p => p.value.isSome

/-- Source: `HasCallHierarchySupport` (capabilities.go). -/
def HasCallHierarchySupport (caps : Option ServerCapabilities) : Bool :=
  match caps with
  | none => false
  | some caps =>
    match caps.CallHierarchyProvider with
    | none => false
    | some p => p.value.isSome

/-- Source: `HasWorkspaceSymbolSupport` (capabilities.go). -/
def HasWorkspaceSymbolSupport (caps : Option ServerCapabilities) : Bool :=
  match caps with
  | none => false
  | some caps =>
    match caps.WorkspaceSymbolProvider with
    | none => false
    | some p => p.value.isSome

/-- Source: `HasRenameSupport` (capabilities.go): simple nil check. -/
def HasRenameSupport (caps : Option ServerCapabilities) : Bool :=
  match caps with
  | none => false
  | some caps => caps.RenameProvider.isSome

/-- Source: `HasCodeActionSupport` (capabilities.go): simple nil check. -/
def HasCodeActionSupport (caps : Option ServerCapabilities) : Bool :=
  match caps with
  | none => false
  | some caps => caps.CodeActionProvider.isSome

/-- Source: `HasSignatureHelpSupport` (capabilities.go): simple nil check. -/
def HasSignatureHelpSupport (caps : Option ServerCapabilities) : Bool :=
  match caps with
  | none => false
  | some caps => caps.SignatureHelpProvider.isSome

/-- Source: `HasCodeLensSupport` (capabilities.go): simple nil check. -/
def HasCodeLensSupport (caps : Option ServerCapabilities) : Bool :=
  match caps with
  | none => false
  | some caps => caps.CodeLensProvider.isSome

/-- Source: `AlwaysSupported` (capabilities.go). -/
def AlwaysSupported : Bool := true

/-- A capabilities record with only the definition wrapper populated
(non-null inner value) and the workspace-symbol wrapper absent. -/
def capsDefOnly : ServerCapabilities :=
  { DefinitionProvider := some ⟨some (CapValue.bool true)⟩
    ReferencesProvider := none
    HoverProvider := none
    DocumentSymbolProvider := none
    CallHierarchyProvider := none
    WorkspaceSymbolProvider := none
    RenameProvider := none
    CodeActionProvider := none
    SignatureHelpProvider := none
    CodeLensProvider := none }

/-- A nullable-wrapper field is "supported" in the spec's sense:
wrapper present AND inner value non-null. -/
def WrapperSupported (o : Option OrCapability) : Prop :=
  ∃ w, o = some w ∧ ∃ v, w.value = some v

/-- Go `strings.ContainsAny(s, chars)`: does `s` contain any char of `chars`. -/
def goContainsAny (s chars : String) : Bool :=
  s.data.any fun c => chars.data.contains c

/-- Go `strings.HasSuffix(s, suffix)`. -/
def goHasSuffix (s suffix : String) : Bool :=
  suffix.data.isSuffixOf s.data

/-- Does `sub` occur as a contiguous sublist of the second list? -/
def containsSub (sub : List Char) : List Char → Bool
  | [] => sub.isEmpty
  | c :: t => sub.isPrefixOf (c :: t) || containsSub sub t

/-- Go `strings.Contains(s, substr)`. -/
def goContains (s substr : String) : Bool :=
  containsSub substr.data s.data

/-- Go `strings.EqualFold(s, t)`, modelled as ASCII case folding. -/
def goEqualFold (s t : String) : Bool :=
  s.data.map Char.toLower == t.data.map Char.toLower

/-- Go `strings.Split(s, sep)` for a non-empty separator. -/
def goSplit (s sep : String) : List String :=
  s.splitOn sep

/-- `protocol.SymbolKind`: the numeric LSP symbol kinds. The resolver passes
0 when a result carries no type information (definition.go). -/
abbrev SymbolKind := Nat

def SymbolKind.Class : SymbolKind := 5

def SymbolKind.Method : SymbolKind := 6

def SymbolKind.Enum : SymbolKind := 10

def SymbolKind.Interface : SymbolKind := 11

def SymbolKind.Function : SymbolKind := 12

def SymbolKind.Variable : SymbolKind := 13

def SymbolKind.Constant : SymbolKind := 14

def SymbolKind.Struct : SymbolKind := 23

/-- Source: `symbolMatches` (definition.go). The Go function is a sequence of
early returns; it is embedded as the equivalent if-chain (a guarded block
that falls through becomes a conjunction in the corresponding condition). -/
def symbolMatches (query symbolName : String) (symbolKind : SymbolKind)
    (containerName : String) : Bool :=
  if symbolName = query then true
  else if goContainsAny query ".:" then decide (symbolName = query)
  else if goHasSuffix symbolName ("::" ++ query)
      || goHasSuffix symbolName ("." ++ query) then true
  else if (symbolKind = SymbolKind.Method ∨ symbolKind = SymbolKind.Function)
      ∧ symbolName = query ∧ containerName ≠ "" then true
  else if (symbolKind = SymbolKind.Class ∨ symbolKind = SymbolKind.Struct
      ∨ symbolKind = SymbolKind.Interface ∨ symbolKind = SymbolKind.Enum)
      ∧ (goEqualFold symbolName query || goContains symbolName query) = true
    then true
  else if (symbolKind = SymbolKind.Variable ∨ symbolKind = SymbolKind.Constant)
      ∧ (goSplit symbolName "::").length > 1
      ∧ (goSplit symbolName "::").getLast? = some query then true
  else false

/-- Go conversion `uint32(i)` for an `int` operand: truncation mod 2^32. -/
def toUint32 (i : Int) : Nat :=
  (i % 4294967296).toNat

/-- `protocol.Position`: 0-indexed wire coordinates (uint32 fields). -/
structure Position where
  Line : Nat
  Character : Nat
deriving DecidableEq

/-- `protocol.Range` as used by the code-action tool. -/
structure PosRange where
  Start : Position
  End : Position
deriving DecidableEq

/-- Source: `GetCallHierarchy` (call-hierarchy.go): the prepare request's
position is built as `uint32(line - 1)`, `uint32(column - 1)`. -/
def callHierarchyPreparePosition (line column : Int) : Position :=
  ⟨toUint32 (line - 1), toUint32 (column - 1)⟩

/-- Source: `GetSignatureHelp` (signature-help.go): same ±1 translation. -/
def signatureHelpPosition (line column : Int) : Position :=
  ⟨toUint32 (line - 1), toUint32 (column - 1)⟩

/-- Source: `GetCompletions` (completions.go): same ±1 translation. -/
def completionPosition (line column : Int) : Position :=
  ⟨toUint32 (line - 1), toUint32 (column - 1)⟩

/-- Source: `GetCodeActions` (code-actions.go): the action range converts all
four 1-indexed inputs with `uint32(x - 1)`. -/
def codeActionRange (startLine startColumn endLine endColumn : Int) : PosRange :=
  ⟨⟨toUint32 (startLine - 1), toUint32 (startColumn - 1)⟩,
   ⟨toUint32 (endLine - 1), toUint32 (endColumn - 1)⟩⟩

/-- Source: output seam, e.g. `item.Range.Start.Line+1` in call-hierarchy.go
and `finalLoc.Range.Start.Line+1` in definition.go: uint32 increment of a
wire-side 0-indexed line before display. -/
def displayLine (wireLine : Nat) : Nat :=
  (wireLine + 1) % 4294967296

/-- Source: output seam, e.g. `r.Start.Character+1` in call-hierarchy.go. -/
def displayColumn (wireCharacter : Nat) : Nat :=
  (wireCharacter + 1) % 4294967296

/-- Numeric value of a decimal digit character. -/
def digitVal (c : Char) : Nat := c.toNat - 48

/-- Value of a decimal digit string, most significant digit first. -/
def decVal (l : List Char) : Nat :=
  l.foldl (fun a c => a * 10 + digitVal c) 0

/-- `protocol.Location`, restricted to the fields the resolver's dedup key
reads: URI, start line, start character (both uint32, modelled as `Nat`). -/
structure Location where
  uri : String
  line : Nat
  character : Nat
deriving DecidableEq

/-- Source: `ReadDefinition` (definition.go):
`fmt.Sprintf("%s:%d:%d", defLoc.URI, defLoc.Range.Start.Line,
defLoc.Range.Start.Character)`. -/
def locationKey (loc : Location) : String :=
  loc.uri ++ ":" ++ Nat.repr loc.line ++ ":" ++ Nat.repr loc.character

/-- A workspace-symbol candidate as consumed by `ReadDefinition`
(definition.go): name, kind, container (kind 0 and empty container when the
result carries no type information), and the location used to issue the
definition query. -/
structure Candidate where
  name : String
  kind : SymbolKind
  containerName : String
  loc : Location
deriving DecidableEq

/-- The dedup loop of `ReadDefinition` (definition.go): the `seenLocations`
map keyed by `locationKey` is modelled as the list of keys inserted so far;
a location is processed (producing one output entry) only when its key is
unseen. This models the happy path in which per-location file opening and
definition extraction succeed. -/
def dedupByKey :
    List (Candidate × Location) → List String → List (Candidate × Location)
  | [], _ => []
  | p :: rest, seen =>
    if locationKey p.2 ∈ seen then dedupByKey rest seen
    else p :: dedupByKey rest (locationKey p.2 :: seen)

/-- The candidate filter of `ReadDefinition`: symbols that fail
`symbolMatches` are skipped. -/
def matchingCandidates (symbolName : String) (results : List Candidate) :
    List Candidate :=
  results.filter fun s => symbolMatches symbolName s.name s.kind s.containerName

/-- All definition locations produced across the surviving candidates, in
processing order, paired with the candidate that produced them.
`definitionOf` abstracts the `client.Definition` round trip together with
`extractDefinitionLocations` (an empty list models a per-candidate miss or
error, which the loop skips). -/
def definitionPairs (symbolName : String) (results : List Candidate)
    (definitionOf : Candidate → List Location) : List (Candidate × Location) :=
  (matchingCandidates symbolName results).flatMap
    fun c => (definitionOf c).map fun l => (c, l)

/-- The deduplicated definition entries `ReadDefinition` renders, one per
first occurrence of a location key. -/
def definitionEntries (symbolName : String) (results : List Candidate)
    (definitionOf : Candidate → List Location) : List (Candidate × Location) :=
  dedupByKey (definitionPairs symbolName results definitionOf) []

/-- Source: `ReadDefinition` (definition.go), happy path of the RPC layer:
the workspace-symbol round trip is the `Except` input, `definitionOf`
abstracts the per-candidate definition query and `render` the per-entry
formatting (`banner+locationInfo+definition`). When no entry survives, the
function returns the string `"<symbolName> not found"` with a nil error. -/
def ReadDefinition (symbolName : String)
    (symbolResult : Except String (List Candidate))
    (definitionOf : Candidate → List Location)
    (render : Candidate → Location → String) : Except String String :=
  match symbolResult with
  | .error e => .error ("failed to fetch symbol: " ++ e)
  | .ok results =>
    let definitions := (definitionEntries symbolName results definitionOf).map
      fun p => render p.1 p.2
    if definitions.isEmpty then .ok (symbolName ++ " not found")
    else .ok (String.join definitions)

/-- A concrete definition location for witnesses. -/
def locA : Location := ⟨"file:///src/a.go", 3, 7⟩

/-- A concrete candidate whose name matches the query "f" exactly. -/
def candA : Candidate := ⟨"f", 0, "", locA⟩

/-- A concrete candidate that does not match the query "method". -/
def candOther : Candidate := ⟨"other", 0, "", locA⟩

theorem hasReferences_iff (c : ServerCapabilities) :
    HasReferencesSupport (some c) = true ↔ WrapperSupported c.ReferencesProvider := by
  unfold HasReferencesSupport WrapperSupported
  cases hc : c.ReferencesProvider with
  | none => simp [hc]
  | some w => cases hv : w.value <;> simp [hc, hv]

theorem hasHover_iff (c : ServerCapabilities) :
    HasHoverSupport (some c) = true ↔ WrapperSupported c.HoverProvider := by
  unfold HasHoverSupport WrapperSupported
  cases hc : c.HoverProvider with
  | none => simp [hc]
  | some w => cases hv : w.value <;> simp [hc, hv]

theorem hasDocumentSymbol_iff (c : ServerCapabilities) :
    HasDocumentSymbolSupport (some c) = true ↔
      WrapperSupported c.DocumentSymbolProvider := by
  unfold HasDocumentSymbolSupport WrapperSupported
  cases hc : c.DocumentSymbolProvider with
  | none => simp [hc]
  | some w => cases hv : w.value <;> simp [hc, hv]

theorem hasCallHierarchy_iff (c : ServerCapabilities) :
    HasCallHierarchySupport (some c) = true ↔
      WrapperSupported c.CallHierarchyProvider := by
  unfold HasCallHierarchySupport WrapperSupported
  cases hc : c.CallHierarchyProvider with
  | none => simp [hc]
  | some w => cases hv : w.value <;> simp [hc, hv]

theorem hasWorkspaceSymbol_iff (c : ServerCapabilities) :
    HasWorkspaceSymbolSupport (some c) = true ↔
      WrapperSupported c.WorkspaceSymbolProvider := by
  unfold HasWorkspaceSymbolSupport WrapperSupported
  cases hc : c.WorkspaceSymbolProvider with
  | none => simp [hc]
  | some w => cases hv : w.value <;> simp [hc, hv]

theorem hasDefinition_iff (c : ServerCapabilities) :
    HasDefinitionSupport (some c) = true ↔
      WrapperSupported c.DefinitionProvider ∧
      WrapperSupported c.WorkspaceSymbolProvider := by
  unfold HasDefinitionSupport WrapperSupported
  cases hd : c.DefinitionProvider with
  | none => simp [hd]
  | some dp =>
    cases hw : c.WorkspaceSymbolProvider with
    | none => simp [hd, hw]
    | some wp =>
      cases hv : dp.value <;> cases hv' : wp.value <;> simp [hd, hw, hv, hv']

theorem hasRename_iff (c : ServerCapabilities) :
    HasRenameSupport (some c) = true ↔ ∃ v, c.RenameProvider = some v := by
  unfold HasRenameSupport
  cases hc : c.RenameProvider <;> simp [hc]

theorem hasCodeAction_iff (c : ServerCapabilities) :
    HasCodeActionSupport (some c) = true ↔ ∃ v, c.CodeActionProvider = some v := by
  unfold HasCodeActionSupport
  cases hc : c.CodeActionProvider <;> simp [hc]

theorem hasSignatureHelp_iff (c : ServerCapabilities) :
    HasSignatureHelpSupport (some c) = true ↔
      ∃ v, c.SignatureHelpProvider = some v := by
  unfold HasSignatureHelpSupport
  cases hc : c.SignatureHelpProvider <;> simp [hc]

theorem hasCodeLens_iff (c : ServerCapabilities) :
    HasCodeLensSupport (some c) = true ↔ ∃ v, c.CodeLensProvider = some v := by
  unfold HasCodeLensSupport
  cases hc : c.CodeLensProvider <;> simp [hc]

/-- C1 (counterexample): the claim's biconditional fails for the definition
feature. With the definition wrapper present and non-null but the
workspace-symbol wrapper absent, `HasDefinitionSupport` still returns false,
because the definition support query is compound. -/
theorem c1_nullable_wrapper_counterexample :
    ¬ (HasDefinitionSupport (some capsDefOnly) = true ↔
        WrapperSupported capsDefOnly.DefinitionProvider) := by
  intro hIff
  have hsup : WrapperSupported capsDefOnly.DefinitionProvider :=
    ⟨⟨some (CapValue.bool true)⟩, rfl, CapValue.bool true, rfl⟩
  have hfalse : HasDefinitionSupport (some capsDefOnly) = false := rfl
  rw [hIff.mpr hsup] at hfalse
  exact Bool.noConfusion hfalse

/-- C1 (amended): for the nullable-wrapper features whose support query tests
exactly one capability field (references, hover, document symbols, call
hierarchy, workspace symbol), the query returns true iff the wrapper is
present and its inner value is non-null; for the definition feature the
wrapper being present with a non-null inner value is necessary but not
sufficient, since `HasDefinitionSupport` also requires the workspace-symbol
capability. -/
theorem c1_nullable_wrapper_amended (c : ServerCapabilities) :
    (HasReferencesSupport (some c) = true ↔
      WrapperSupported c.ReferencesProvider) ∧
    (HasHoverSupport (some c) = true ↔ WrapperSupported c.HoverProvider) ∧
    (HasDocumentSymbolSupport (some c) = true ↔
      WrapperSupported c.DocumentSymbolProvider) ∧
    (HasCallHierarchySupport (some c) = true ↔
      WrapperSupported c.CallHierarchyProvider) ∧
    (HasWorkspaceSymbolSupport (some c) = true ↔
      WrapperSupported c.WorkspaceSymbolProvider) ∧
    (HasDefinitionSupport (some c) = true →
      WrapperSupported c.DefinitionProvider) :=
  ⟨hasReferences_iff c, hasHover_iff c, hasDocumentSymbol_iff c,
   hasCallHierarchy_iff c, hasWorkspaceSymbol_iff c,
   fun h => ((hasDefinition_iff c).mp h).1⟩

/-- C1 (amended, witness): evaluated at a record where each of the five
single-field wrapper queries is exercised. -/
theorem c1_nullable_wrapper_amended_witness :
    HasReferencesSupport (some capsDefOnly) = false ∧
    ¬ WrapperSupported capsDefOnly.ReferencesProvider := by
  refine ⟨rfl, fun h => ?_⟩
  have := (c1_nullable_wrapper_amended capsDefOnly).1.mpr h
  exact Bool.noConfusion ((rfl : HasReferencesSupport (some capsDefOnly) = false) ▸ this)

/-- C2: for every plain-optional capability (rename, code action, signature
help, code lens), the support query returns true iff the field is present,
regardless of its concrete value. -/
theorem c2_plain_optional_support (c : ServerCapabilities) :
    (HasRenameSupport (some c) = true ↔ ∃ v, c.RenameProvider = some v) ∧
    (HasCodeActionSupport (some c) = true ↔
      ∃ v, c.CodeActionProvider = some v) ∧
    (HasSignatureHelpSupport (some c) = true ↔
      ∃ v, c.SignatureHelpProvider = some v) ∧
    (HasCodeLensSupport (some c) = true ↔ ∃ v, c.CodeLensProvider = some v) :=
  ⟨hasRename_iff c, hasCodeAction_iff c, hasSignatureHelp_iff c,
   hasCodeLens_iff c⟩

/-- C3: the compound definition support query returns true iff both the
definition capability and the workspace-symbol capability are present with
non-null inner values. -/
theorem c3_definition_support_compound (c : ServerCapabilities) :
    HasDefinitionSupport (some c) = true ↔
      WrapperSupported c.DefinitionProvider ∧
      WrapperSupported c.WorkspaceSymbolProvider :=
  hasDefinition_iff c

/-- C10: every capability support query returns false on a nil
capabilities-snapshot pointer. -/
theorem c10_nil_caps_all_false :
    HasDefinitionSupport none = false ∧
    HasReferencesSupport none = false ∧
    HasHoverSupport none = false ∧
    HasDocumentSymbolSupport none = false ∧
    HasCallHierarchySupport none = false ∧
    HasWorkspaceSymbolSupport none = false ∧
    HasRenameSupport none = false ∧
    HasCodeActionSupport none = false ∧
    HasSignatureHelpSupport none = false ∧
    HasCodeLensSupport none = false :=
  ⟨rfl, rfl, rfl, rfl, rfl, rfl, rfl, rfl, rfl, rfl⟩

/-- C5: the unqualified query "method" matches the qualified candidates
"TestClass::method" and "TestClass.method" (whatever their kind or
container); any query containing an explicit scope separator ('.' or ':')
matches a candidate iff the candidate's name equals the query exactly — in
particular "TestClass::method" never matches a candidate named just
"method". -/
theorem c5_symbol_matching :
    (∀ kind container,
      symbolMatches "method" "TestClass::method" kind container = true) ∧
    (∀ kind container,
      symbolMatches "method" "TestClass.method" kind container = true) ∧
    (∀ query name kind container, goContainsAny query ".:" = true →
      (symbolMatches query name kind container = true ↔ name = query)) ∧
    (∀ kind container,
      symbolMatches "TestClass::method" "method" kind container = false) := by
  refine ⟨fun kind container => rfl, fun kind container => rfl,
    fun query name kind container hq => ⟨fun h => ?_, fun h => ?_⟩,
    fun kind container => rfl⟩
  · by_cases hn : name = query
    · exact hn
    · rw [symbolMatches, if_neg hn, if_pos hq] at h
      exact of_decide_eq_true h
  · subst h
    rw [symbolMatches, if_pos rfl]

/-- C5 (witness): the separator-query rule evaluated at the query
"TestClass::method" against the candidate name "method". -/
theorem c5_symbol_matching_witness :
    goContainsAny "TestClass::method" ".:" = true ∧
    (symbolMatches "TestClass::method" "method" 0 "" = true ↔
      "method" = "TestClass::method") :=
  ⟨by decide,
    c5_symbol_matching.2.2.1 "TestClass::method" "method" 0 "" (by decide)⟩

/-- C8: for an unqualified query and a type-like candidate kind (class,
struct, interface or enum), case-insensitive equality or substring
containment of the query in the candidate name makes `symbolMatches`
accept the candidate. -/
theorem c8_typelike_fuzzy_match (query name container : String)
    (kind : SymbolKind)
    (hq : goContainsAny query ".:" = false)
    (hk : kind = SymbolKind.Class ∨ kind = SymbolKind.Struct
      ∨ kind = SymbolKind.Interface ∨ kind = SymbolKind.Enum)
    (hm : (goEqualFold name query || goContains name query) = true) :
    symbolMatches query name kind container = true := by
  unfold symbolMatches
  split_ifs with h1 h2 h3 h4 h5 h6 <;> try rfl
  · rw [hq] at h2
    exact Bool.noConfusion h2
  · exact absurd ⟨hk, hm⟩ h5

/-- C8 (witness): the query "vector" with a class candidate named
"std::vector<int>" is accepted through substring containment. -/
theorem c8_typelike_fuzzy_match_witness :
    goContainsAny "vector" ".:" = false ∧
    (goEqualFold "std::vector<int>" "vector"
      || goContains "std::vector<int>" "vector") = true ∧
    symbolMatches "vector" "std::vector<int>" SymbolKind.Class "" = true :=
  ⟨by decide, by decide,
    c8_typelike_fuzzy_match "vector" "std::vector<int>" "" SymbolKind.Class
      (by decide) (Or.inl rfl) (by decide)⟩

/-- C4: every tool operation taking 1-indexed coordinates (call hierarchy,
signature help, completions, code actions) sends `line-1` / `column-1` as
the 0-indexed wire position — in particular 1-indexed (5,3) becomes
0-indexed (4,2) — and the output seam adds 1 back to wire-side values. -/
theorem c4_coordinate_translation (line column : Int) (w : Nat)
    (hl1 : 1 ≤ line) (hl2 : line ≤ 4294967296)
    (hc1 : 1 ≤ column) (hc2 : column ≤ 4294967296)
    (hw : w < 4294967295) :
    callHierarchyPreparePosition line column =
      ⟨(line - 1).toNat, (column - 1).toNat⟩ ∧
    signatureHelpPosition line column =
      ⟨(line - 1).toNat, (column - 1).toNat⟩ ∧
    completionPosition line column = ⟨(line - 1).toNat, (column - 1).toNat⟩ ∧
    codeActionRange line column line column =
      ⟨⟨(line - 1).toNat, (column - 1).toNat⟩,
       ⟨(line - 1).toNat, (column - 1).toNat⟩⟩ ∧
    callHierarchyPreparePosition 5 3 = ⟨4, 2⟩ ∧
    displayLine w = w + 1 ∧ displayColumn w = w + 1 := by
  have hmod : ∀ i : Int, 1 ≤ i → i ≤ 4294967296 → toUint32 (i - 1) = (i - 1).toNat := by
    intro i h1 h2
    unfold toUint32
    rw [Int.emod_eq_of_lt (by omega) (by omega)]
  have hdisp : ∀ f : Nat → Nat, (∀ x, f x = (x + 1) % 4294967296) → f w = w + 1 := by
    intro f hf
    rw [hf, Nat.mod_eq_of_lt (by omega)]
  refine ⟨?_, ?_, ?_, ?_, by decide, ?_, ?_⟩
  · unfold callHierarchyPreparePosition
    rw [hmod line hl1 hl2, hmod column hc1 hc2]
  · unfold signatureHelpPosition
    rw [hmod line hl1 hl2, hmod column hc1 hc2]
  · unfold completionPosition
    rw [hmod line hl1 hl2, hmod column hc1 hc2]
  · unfold codeActionRange
    rw [hmod line hl1 hl2, hmod column hc1 hc2]
  · exact hdisp displayLine fun x => rfl
  · exact hdisp displayColumn fun x => rfl

/-- C4 (witness): at 1-indexed line 5, column 3 and a wire-side line 4, the
translation gives 0-indexed (4,2) on the wire and displays 4 as 5. -/
theorem c4_coordinate_translation_witness :
    (1 : Int) ≤ 5 ∧ (1 : Int) ≤ 3 ∧ (4 : Nat) < 4294967295 ∧
    (callHierarchyPreparePosition 5 3 = ⟨((5 : Int) - 1).toNat, ((3 : Int) - 1).toNat⟩ ∧
     signatureHelpPosition 5 3 = ⟨((5 : Int) - 1).toNat, ((3 : Int) - 1).toNat⟩ ∧
     completionPosition 5 3 = ⟨((5 : Int) - 1).toNat, ((3 : Int) - 1).toNat⟩ ∧
     codeActionRange 5 3 5 3 =
       ⟨⟨((5 : Int) - 1).toNat, ((3 : Int) - 1).toNat⟩,
        ⟨((5 : Int) - 1).toNat, ((3 : Int) - 1).toNat⟩⟩ ∧
     callHierarchyPreparePosition 5 3 = ⟨4, 2⟩ ∧
     displayLine 4 = 4 + 1 ∧ displayColumn 4 = 4 + 1) :=
  ⟨by decide, by decide, by decide,
    c4_coordinate_translation 5 3 4 (by decide) (by decide) (by decide)
      (by decide) (by decide)⟩

theorem digitChar_ne_colon (n : Nat) : Nat.digitChar n ≠ ':' := by
  by_cases h : n < 16
  · interval_cases n <;> decide
  · have hstar : Nat.digitChar n = '*' := by
      unfold Nat.digitChar
      repeat rw [if_neg (by omega)]
    rw [hstar]
    decide

theorem toDigitsCore_ne_colon (b : Nat) :
    ∀ (fuel n : Nat) (ds : List Char), (∀ c ∈ ds, c ≠ ':') →
      ∀ c ∈ Nat.toDigitsCore b fuel n ds, c ≠ ':' := by
  intro fuel
  induction fuel with
  | zero =>
    intro n ds h c hc
    exact h c (by simpa [Nat.toDigitsCore] using hc)
  | succ fuel ih =>
    intro n ds h c hc
    simp only [Nat.toDigitsCore] at hc
    split at hc
    · rcases List.mem_cons.mp hc with rfl | hmem
      · exact digitChar_ne_colon _
      · exact h c hmem
    · refine ih (n / b) (Nat.digitChar (n % b) :: ds) ?_ c hc
      intro x hx
      rcases List.mem_cons.mp hx with rfl | hx'
      · exact digitChar_ne_colon _
      · exact h x hx'

theorem repr_no_colon (n : Nat) : ∀ c ∈ (Nat.repr n).data, c ≠ ':' := by
  intro c hc
  have hdata : (Nat.repr n).data = Nat.toDigitsCore 10 (n + 1) n [] := rfl
  rw [hdata] at hc
  exact toDigitsCore_ne_colon 10 (n + 1) n [] (by intro x hx; cases hx) c hc

theorem toDigitsCore_append (b : Nat) :
    ∀ (fuel n : Nat) (ds : List Char),
      Nat.toDigitsCore b fuel n ds = Nat.toDigitsCore b fuel n [] ++ ds := by
  intro fuel
  induction fuel with
  | zero => intro n ds; rfl
  | succ fuel ih =>
    intro n ds
    by_cases hb : n / b = 0
    · simp [Nat.toDigitsCore, hb]
    · simp only [Nat.toDigitsCore, hb, if_false, ite_false]
      rw [ih (n / b) (Nat.digitChar (n % b) :: ds),
        ih (n / b) [Nat.digitChar (n % b)]]
      simp

theorem digitVal_digitChar (m : Nat) (h : m < 10) :
    digitVal (Nat.digitChar m) = m := by
  interval_cases m <;> decide

theorem foldl_toDigitsCore :
    ∀ (fuel n a : Nat), n < fuel →
      (Nat.toDigitsCore 10 fuel n []).foldl (fun a c => a * 10 + digitVal c) a =
        a * 10 ^ (Nat.toDigitsCore 10 fuel n []).length + n := by
  intro fuel
  induction fuel with
  | zero => intro n a h; exact absurd h (Nat.not_lt_zero n)
  | succ fuel ih =>
    intro n a h
    by_cases hb : n / 10 = 0
    · have hn : n < 10 := (Nat.div_eq_zero_iff (by decide)).mp hb
      simp only [Nat.toDigitsCore, hb, ite_true, if_true, List.foldl_cons,
        List.foldl_nil, List.length_cons, List.length_nil]
      rw [digitVal_digitChar (n % 10) (Nat.mod_lt _ (by decide)),
        Nat.mod_eq_of_lt hn]
      simp
    · have h1 : 0 < n := Nat.pos_of_ne_zero (by
        intro h0
        exact hb (by simp [h0]))
      have h2 : n / 10 < n := Nat.div_lt_self h1 (by decide)
      have h3 : n / 10 < fuel := by omega
      simp only [Nat.toDigitsCore, hb, if_false, ite_false]
      rw [toDigitsCore_append 10 fuel (n / 10) [Nat.digitChar (n % 10)]]
      rw [List.foldl_append, List.length_append]
      rw [ih (n / 10) a h3]
      simp only [List.foldl_cons, List.foldl_nil, List.length_cons,
        List.length_nil]
      rw [digitVal_digitChar (n % 10) (Nat.mod_lt _ (by decide))]
      have hmod : n / 10 * 10 + n % 10 = n := by omega
      calc (a * 10 ^ (Nat.toDigitsCore 10 fuel (n / 10) []).length + n / 10) * 10
            + n % 10
          = a * (10 ^ (Nat.toDigitsCore 10 fuel (n / 10) []).length * 10)
            + (n / 10 * 10 + n % 10) := by ring
        _ = a * 10 ^ ((Nat.toDigitsCore 10 fuel (n / 10) []).length + (0 + 1)) + n := by
            rw [hmod, Nat.zero_add, pow_succ]

theorem decVal_repr (n : Nat) : decVal (Nat.repr n).data = n := by
  have hdata : (Nat.repr n).data = Nat.toDigitsCore 10 (n + 1) n [] := rfl
  rw [hdata]
  unfold decVal
  rw [foldl_toDigitsCore (n + 1) n 0 (Nat.lt_succ_self n)]
  simp

theorem nat_repr_injective {m n : Nat} (h : Nat.repr m = Nat.repr n) : m = n := by
  have hm := decVal_repr m
  have hn := decVal_repr n
  rw [h] at hm
  omega

theorem append_colon_inj :
    ∀ (x x' y y' : List Char), ':' ∉ x → ':' ∉ x' →
      x ++ ':' :: y = x' ++ ':' :: y' → x = x' ∧ y = y' := by
  intro x
  induction x with
  | nil =>
    intro x' y y' hx hx' h
    cases x' with
    | nil =>
      simp only [List.nil_append, List.cons.injEq] at h
      exact ⟨rfl, h.2⟩
    | cons c t =>
      simp only [List.nil_append, List.cons_append, List.cons.injEq] at h
      exact absurd (h.1 ▸ List.mem_cons_self c t) hx'
  | cons c t ih =>
    intro x' y y' hx hx' h
    cases x' with
    | nil =>
      simp only [List.nil_append, List.cons_append, List.cons.injEq] at h
      exact absurd (h.1.symm ▸ List.mem_cons_self c t) hx
    | cons c' t' =>
      simp only [List.cons_append, List.cons.injEq] at h
      obtain ⟨rfl, h2⟩ := h
      obtain ⟨rfl, rfl⟩ := ih t' y y'
        (fun hm => hx (List.mem_cons_of_mem _ hm))
        (fun hm => hx' (List.mem_cons_of_mem _ hm)) h2
      exact ⟨rfl, rfl⟩

theorem key_data_shape (u : String) (l c : Nat) :
    (u ++ ":" ++ Nat.repr l ++ ":" ++ Nat.repr c).data =
      u.data ++ ':' :: ((Nat.repr l).data ++ ':' :: (Nat.repr c).data) := by
  have hcolon : (":" : String).data = [':'] := rfl
  simp [String.data_append, hcolon]

theorem rev_shape (u s t : List Char) :
    (u ++ ':' :: (s ++ ':' :: t)).reverse =
      t.reverse ++ ':' :: (s.reverse ++ ':' :: u.reverse) := by
  simp

theorem locationKey_injective {a b : Location}
    (h : locationKey a = locationKey b) : a = b := by
  have hd := congrArg String.data h
  rw [locationKey, locationKey, key_data_shape, key_data_shape] at hd
  have hrev := congrArg List.reverse hd
  rw [rev_shape, rev_shape] at hrev
  have hnc : ∀ n : Nat, ':' ∉ (Nat.repr n).data.reverse := by
    intro n hmem
    exact repr_no_colon n ':' (List.mem_reverse.mp hmem) rfl
  obtain ⟨hchar, hrest⟩ := append_colon_inj _ _ _ _
    (hnc a.character) (hnc b.character) hrev
  obtain ⟨hline, huri⟩ := append_colon_inj _ _ _ _
    (hnc a.line) (hnc b.line) hrest
  have hc : a.character = b.character :=
    nat_repr_injective (String.ext (List.reverse_injective hchar))
  have hl : a.line = b.line :=
    nat_repr_injective (String.ext (List.reverse_injective hline))
  have hu : a.uri = b.uri := String.ext (List.reverse_injective huri)
  cases a
  cases b
  simp_all

theorem countP_dedupByKey (k : String) :
    ∀ (l : List (Candidate × Location)) (seen : List String),
      (dedupByKey l seen).countP (fun p => decide (locationKey p.2 = k)) =
        if k ∈ seen then 0
        else if ∃ p ∈ l, locationKey p.2 = k then 1 else 0 := by
  intro l
  induction l with
  | nil =>
    intro seen
    by_cases hk : k ∈ seen <;> simp [dedupByKey, hk]
  | cons p rest ih =>
    intro seen
    by_cases hs : locationKey p.2 ∈ seen
    · rw [dedupByKey, if_pos hs, ih seen]
      by_cases hk : k ∈ seen
      · simp [hk]
      · have hne : locationKey p.2 ≠ k := fun he => hk (he ▸ hs)
        have hiff : (∃ q ∈ p :: rest, locationKey q.2 = k) ↔
            (∃ q ∈ rest, locationKey q.2 = k) := by
          constructor
          · rintro ⟨q, hq, hqe⟩
            rcases List.mem_cons.mp hq with rfl | hq'
            · exact absurd hqe hne
            · exact ⟨q, hq', hqe⟩
          · rintro ⟨q, hq, hqe⟩
            exact ⟨q, List.mem_cons_of_mem _ hq, hqe⟩
        simp only [hk, if_neg, ite_false, hiff]
    · rw [dedupByKey, if_neg hs, List.countP_cons, ih (locationKey p.2 :: seen)]
      by_cases hk : locationKey p.2 = k
      · subst hk
        have hex : ∃ q ∈ p :: rest, locationKey q.2 = locationKey p.2 :=
          ⟨p, List.mem_cons_self p rest, rfl⟩
        rw [if_pos (List.mem_cons_self _ _), if_neg hs, if_pos hex]
        simp
      · have hseen : (k ∈ locationKey p.2 :: seen) ↔ k ∈ seen := by
          constructor
          · intro hm
            rcases List.mem_cons.mp hm with rfl | hm'
            · exact absurd rfl hk
            · exact hm'
          · exact fun hm => List.mem_cons_of_mem _ hm
        have hiff : (∃ q ∈ p :: rest, locationKey q.2 = k) ↔
            (∃ q ∈ rest, locationKey q.2 = k) := by
          constructor
          · rintro ⟨q, hq, hqe⟩
            rcases List.mem_cons.mp hq with rfl | hq'
            · exact absurd hqe hk
            · exact ⟨q, hq', hqe⟩
          · rintro ⟨q, hq, hqe⟩
            exact ⟨q, List.mem_cons_of_mem _ hq, hqe⟩
        simp only [hseen, hiff, decide_eq_true_eq, hk, ite_false, if_neg,
          Nat.add_zero]

/-- C6: whenever the definition results contain a location (in particular
when two results carry an identical (uri, start line, start column)), the
deduplicated output contains exactly one entry for that location. -/
theorem c6_dedup_unique (symbolName : String) (results : List Candidate)
    (definitionOf : Candidate → List Location) (t : Location)
    (h : 2 ≤ ((definitionPairs symbolName results definitionOf).map
      Prod.snd).count t) :
    (definitionEntries symbolName results definitionOf).countP
      (fun p => decide (p.2 = t)) = 1 := by
  have hmem : t ∈ (definitionPairs symbolName results definitionOf).map
      Prod.snd := List.count_pos_iff.mp (by omega)
  obtain ⟨q, hq, hqt⟩ := List.mem_map.mp hmem
  have hfun : (fun p : Candidate × Location => decide (p.2 = t)) =
      (fun p => decide (locationKey p.2 = locationKey t)) := by
    funext p
    by_cases he : p.2 = t
    · simp [he]
    · have hkey : locationKey p.2 ≠ locationKey t :=
        fun hk => he (locationKey_injective hk)
      simp [he, hkey]
  unfold definitionEntries
  rw [hfun, countP_dedupByKey (locationKey t)
    (definitionPairs symbolName results definitionOf) []]
  rw [if_neg (List.not_mem_nil _), if_pos ⟨q, hq, congrArg locationKey hqt⟩]

/-- C6 (witness): a single matching candidate whose definition query returns
the same location twice yields exactly one deduplicated entry. -/
theorem c6_dedup_unique_witness :
    2 ≤ ((definitionPairs "f" [candA] (fun _ => [locA, locA])).map
      Prod.snd).count locA ∧
    (definitionEntries "f" [candA] (fun _ => [locA, locA])).countP
      (fun p => decide (p.2 = locA)) = 1 :=
  ⟨by decide, c6_dedup_unique "f" [candA] (fun _ => [locA, locA]) locA
    (by decide)⟩

/-- C7: when no candidate survives the symbol-matching filter, or every
surviving candidate's definition query resolves to nothing, `ReadDefinition`
returns the "not found" string through the non-error channel. -/
theorem c7_not_found (symbolName : String) (results : List Candidate)
    (definitionOf : Candidate → List Location)
    (render : Candidate → Location → String)
    (h : (∀ c ∈ results,
        symbolMatches symbolName c.name c.kind c.containerName = false) ∨
      (∀ c ∈ results, definitionOf c = [])) :
    ReadDefinition symbolName (Except.ok results) definitionOf render =
      Except.ok (symbolName ++ " not found") := by
  have hpairs : definitionPairs symbolName results definitionOf = [] := by
    rcases h with h | h
    · have hfil : matchingCandidates symbolName results = [] := by
        unfold matchingCandidates
        rw [List.filter_eq_nil_iff]
        intro c hc
        simp [h c hc]
      unfold definitionPairs
      rw [hfil]
      rfl
    · unfold definitionPairs
      rw [List.flatMap_eq_nil_iff]
      intro c hc
      have hcr : c ∈ results := List.mem_of_mem_filter hc
      rw [h c hcr]
      rfl
  unfold ReadDefinition definitionEntries
  simp only [hpairs]
  simp [dedupByKey]

/-- C7 (witness): the query "method" against a single non-matching candidate
returns "method not found" as a successful result. -/
theorem c7_not_found_witness :
    (∀ c ∈ [candOther],
      symbolMatches "method" c.name c.kind c.containerName = false) ∧
    ReadDefinition "method" (Except.ok [candOther]) (fun _ => [locA])
        (fun _ _ => "") =
      Except.ok ("method" ++ " not found") :=
  ⟨by decide, c7_not_found "method" [candOther] (fun _ => [locA])
    (fun _ _ => "") (Or.inl (by decide))⟩
